import Mathlib

/-!
Verification development for the StaffScheduler CP-SAT schedule optimizer
(`backend/optimization-scripts/schedule_optimizer.py`).

The Python source is shallowly embedded below.  Strings are handled through
their character lists; Python `int(...)` on canonical decimal numerals is
modelled by `py_int`; Python exceptions (raised by `int(...)`, indexing, or
`datetime.strptime`) are modelled by `Option`, with `none` standing for a
raised exception.  Python floor division `//` on integers is `Int.fdiv`.
Machine floats never carry fractional information in the functions modelled
here except for the coverage percentage, which is modelled over `ℚ`.
-/

namespace StaffScheduler

/-! ### Character and numeral utilities -/

/-- Value of a decimal digit character. -/
def digit_val (c : Char) : Nat := c.toNat - 48

/-- Decimal digit character for `n % 10`. -/
def digit_char (n : Nat) : Char :=
  match n with
  | 0 => '0' | 1 => '1' | 2 => '2' | 3 => '3' | 4 => '4'
  | 5 => '5' | 6 => '6' | 7 => '7' | 8 => '8' | _ => '9'

/-- Fold a digit list into the numeral it denotes. -/
def parse_digits (cs : List Char) : Nat :=
  cs.foldl (fun n c => n * 10 + digit_val c) 0

/-- Python `int(...)` restricted to nonempty all-digit strings (the shapes
the optimizer feeds it); anything else raises, modelled by `none`. -/
def py_nat (cs : List Char) : Option Nat :=
  if cs ≠ [] ∧ cs.all Char.isDigit then some (parse_digits cs) else none

/-- Python `int(...)` including a possible leading minus sign. -/
def py_int (cs : List Char) : Option Int :=
  match cs with
  | '-' :: rest => (py_nat rest).map (fun n => -(n : Int))
  | _ => (py_nat cs).map (fun n => (n : Int))

/-- Python `str.split(sep)` for a one-character separator: returns the
(nonempty) list of chunks, keeping empty chunks. -/
def split_char (sep : Char) : List Char → List (List Char)
  | [] => [[]]
  | c :: rest =>
    match split_char sep rest with
    | [] => [[]]
    | g :: gs => if c = sep then [] :: g :: gs else (c :: g) :: gs

/-- Decimal rendering of `n`, digit list, via explicit fuel so that the
definition is structural and kernel-reducible. -/
def render_nat_aux : Nat → Nat → List Char
  | 0, _ => []
  | fuel + 1, n =>
    if n = 0 then [] else render_nat_aux fuel (n / 10) ++ [digit_char (n % 10)]

/-- Decimal rendering of a natural number, as produced by a Python f-string. -/
def render_nat (n : Nat) : List Char :=
  if n = 0 then ['0'] else render_nat_aux (n + 1) n

/-- Lexicographic comparison of character lists, matching Python string
comparison on code points. -/
def chars_le : List Char → List Char → Bool
  | [], _ => true
  | _ :: _, [] => false
  | a :: as_, b :: bs => if a < b then true else if b < a then false else chars_le as_ bs

/-- First-occurrence deduplication with an accumulator of already seen
elements; models collecting the keys of a Python dict built by insertion. -/
def dedup_first_aux [DecidableEq α] (seen : List α) : List α → List α
  | [] => []
  | x :: xs => if x ∈ seen then dedup_first_aux seen xs
               else x :: dedup_first_aux (x :: seen) xs

/-- First-occurrence deduplication (Python dict key order). -/
def dedup_first [DecidableEq α] (l : List α) : List α :=
  dedup_first_aux [] l

/-- Insertion into a `chars_le`-sorted list of strings. -/
def insert_sorted (x : String) : List String → List String
  | [] => [x]
  | y :: ys => if chars_le x.data y.data then x :: y :: ys else y :: insert_sorted x ys

/-- Insertion sort on strings; models Python `sorted` on date strings
(lexicographic code-point order, and the inputs are duplicate-free). -/
def sort_strings (l : List String) : List String :=
  l.foldr insert_sorted []

/-! ### Time utilities (`_parse_time`, `_calculate_shift_hours`) -/

/-- `_parse_time`: split on `':'` and combine the first two fields;
fewer than two fields or a non-numeric field raises (`none`). -/
def parse_time (time_str : String) : Option Int :=
  match split_char ':' time_str.data with
  | p0 :: p1 :: _ => do
    let h ← py_int p0
    let m ← py_int p1
    pure (h * 60 + m)
  | _ => none

/-! ### Calendar dates and the ISO week calendar

`_get_week_key` calls `datetime.strptime(date_str, "%Y-%m-%d")` and
`date.isocalendar()`.  Both library routines are embedded here: Gregorian
date validation, Sakamoto day-of-week, and the standard ISO 8601 week
computation used by CPython's `isocalendar`. -/

/-- Gregorian leap-year test. -/
def is_leap (y : Nat) : Bool :=
  (y % 4 == 0 && y % 100 != 0) || y % 400 == 0

/-- Days in month `m` of year `y` (months numbered from 1). -/
def days_in_month (y m : Nat) : Nat :=
  match m with
  | 1 => 31 | 2 => if is_leap y then 29 else 28 | 3 => 31
  | 4 => 30 | 5 => 31 | 6 => 30 | 7 => 31 | 8 => 31
  | 9 => 30 | 10 => 31 | 11 => 30 | _ => 31

/-- `datetime.strptime(s, "%Y-%m-%d")`: three dash-separated numeric fields
forming a valid Gregorian date within `datetime`'s year range 1–9999;
anything else raises (`none`). -/
def parse_date (s : String) : Option (Nat × Nat × Nat) :=
  match split_char '-' s.data with
  | [ys, ms, ds] => do
    let y ← py_nat ys
    let m ← py_nat ms
    let d ← py_nat ds
    if 1 ≤ y ∧ y ≤ 9999 ∧ 1 ≤ m ∧ m ≤ 12 ∧ 1 ≤ d ∧ d ≤ days_in_month y m
    then pure (y, m, d) else none
  | _ => none

/-- Ordinal day of the year (1-based). -/
def day_of_year (y m d : Nat) : Nat :=
  let before : Nat :=
    match m with
    | 1 => 0 | 2 => 31 | 3 => 59 | 4 => 90 | 5 => 120 | 6 => 151
    | 7 => 181 | 8 => 212 | 9 => 243 | 10 => 273 | 11 => 304 | _ => 334
  let leap_add : Nat := if 3 ≤ m ∧ is_leap y then 1 else 0
  before + leap_add + d

/-- Sakamoto's day-of-week formula: `0` is Sunday, …, `6` is Saturday. -/
def day_of_week (y m d : Nat) : Nat :=
  let t : Nat :=
    match m with
    | 1 => 0 | 2 => 3 | 3 => 2 | 4 => 5 | 5 => 0 | 6 => 3
    | 7 => 5 | 8 => 1 | 9 => 4 | 10 => 6 | 11 => 2 | _ => 4
  let y' := if m < 3 then y - 1 else y
  (y' + y' / 4 - y' / 100 + y' / 400 + t + d) % 7

/-- ISO weekday: Monday `1` through Sunday `7`. -/
def iso_weekday (y m d : Nat) : Nat :=
  let w := day_of_week y m d
  if w = 0 then 7 else w

/-- Number of ISO weeks (52 or 53) in year `y`. -/
def iso_week_count (y : Nat) : Nat :=
  let p : Nat → Nat := fun yy => (yy + yy / 4 - yy / 100 + yy / 400) % 7
  if p y = 4 ∨ p (y - 1) = 3 then 53 else 52

/-- `date.isocalendar()` without the weekday component: the pair
(ISO year, ISO week number). -/
def isocalendar (y m d : Nat) : Nat × Nat :=
  let w := (day_of_year y m d + 10 - iso_weekday y m d) / 7
  if w = 0 then (y - 1, iso_week_count (y - 1))
  else if iso_week_count y < w then (y + 1, 1)
  else (y, w)

/-- `_get_week_key`: `f"{date.year}-W{date.isocalendar()[1]}"` — note that
the *calendar* year is paired with the *ISO* week number. -/
def get_week_key (date_str : String) : Option String := do
  let (y, m, d) ← parse_date date_str
  pure (String.mk (render_nat y ++ '-' :: 'W' :: render_nat (isocalendar y m d).2))

/-- The ISO week a date belongs to, the pair (ISO year, ISO week number);
this is the spec's notion of "ISO calendar week" used to judge the keys. -/
def iso_week_of (date_str : String) : Option (Nat × Nat) := do
  let (y, m, d) ← parse_date date_str
  pure (isocalendar y m d)

/-! ### Data model

`self.shifts` and `self.employees` are Python dicts keyed by `id`; they are
modelled as lists of records (dict values in insertion order, ids unique
where a claim needs it).  Optional JSON fields accessed with `.get(k, v)`
are `Option` fields read through accessors supplying the default. -/

structure Shift where
  id : String
  date : String
  start_time : String
  end_time : String
  min_staff : Option Int := none
  max_staff : Option Int := none
  required_skills : List String := []
deriving DecidableEq

instance : Inhabited Shift := ⟨⟨"", "", "", "", none, none, []⟩⟩

/-- `shift.get('min_staff', 1)`. -/
def Shift.minStaff (s : Shift) : Int := s.min_staff.getD 1

/-- `shift.get('max_staff', min_staff + 2)`. -/
def Shift.maxStaff (s : Shift) : Int := s.max_staff.getD (s.minStaff + 2)

structure Employee where
  id : String
  skills : List String := []
  unavailable_dates : List String := []
  max_hours_per_week : Option Int := none
  max_consecutive_days : Option Nat := none
deriving DecidableEq

/-- `employee.get('max_hours_per_week', 40)`. -/
def Employee.maxHours (e : Employee) : Int := e.max_hours_per_week.getD 40

/-- `employee.get('max_consecutive_days', 5)`. -/
def Employee.maxConsec (e : Employee) : Nat := e.max_consecutive_days.getD 5

/-- One employee's entry in `self.preferences`. -/
structure EmployeePrefs where
  preferred_shifts : List String := []
  avoid_shifts : List String := []
deriving DecidableEq

/-- `self.shifts[shift_id]` given the dict contents as a list. -/
def shift_lookup (shifts : List Shift) (sid : String) : Shift :=
  (shifts.find? (fun s => s.id == sid)).getD default

/-! ### `_calculate_shift_hours` and `_shifts_overlap` -/

/-- `_calculate_shift_hours`: parse both times, add a day on overnight wrap,
floor-divide the minutes by 60 (Python `//` is `Int.fdiv`). -/
def calculate_shift_hours (shift : Shift) : Option Int := do
  let start ← parse_time shift.start_time
  let e ← parse_time shift.end_time
  let e := if e < start then e + 24 * 60 else e
  pure ((e - start).fdiv 60)

/-- `_shifts_overlap`: open-interval test on the parsed minute windows. -/
def shifts_overlap (shift1 shift2 : Shift) : Option Bool := do
  let start1 ← parse_time shift1.start_time
  let end1 ← parse_time shift1.end_time
  let start2 ← parse_time shift2.start_time
  let end2 ← parse_time shift2.end_time
  pure (if end1 ≤ start2 ∨ end2 ≤ start1 then false else true)

/-! ### `_find_overlapping_shifts` -/

/-- Inner loop of `_find_overlapping_shifts`: the later shifts (in input
order) that overlap the seed `shift_id_1`. -/
def overlap_group (shifts : List Shift) (shift_id_1 : String) :
    List String → Option (List String)
  | [] => pure []
  | shift_id_2 :: rest => do
    let b ← shifts_overlap (shift_lookup shifts shift_id_1) (shift_lookup shifts shift_id_2)
    let tail ← overlap_group shifts shift_id_1 rest
    pure (if b then shift_id_2 :: tail else tail)

/-- `_find_overlapping_shifts`: for each shift in input order, the group of
it plus every later overlapping shift, retaining groups of two or more. -/
def find_overlapping_shifts (shifts : List Shift) :
    List String → Option (List (List String))
  | [] => pure []
  | shift_id_1 :: rest => do
    let g ← overlap_group shifts shift_id_1 rest
    let others ← find_overlapping_shifts shifts rest
    pure (if 1 < (shift_id_1 :: g).length then (shift_id_1 :: g) :: others else others)

/-! ### Hard constraints

A candidate solution of the CP-SAT model is a valuation
`A : String → String → Bool` of the assignment variables
(`A employee_id shift_id`).  Each `_add_*_constraints` method is embedded
as the predicate (decidable checker) its emitted constraints impose on `A`;
a solution returned by the solver with `OPTIMAL` or `FEASIBLE` status is
any valuation every checker accepts.  Checkers whose constraint
construction can raise (time or date parsing) return `Option Bool`, with
`none` for an exception during model construction. -/

/-- Grouping of shifts by literal date string, in dict insertion order:
`(date, shift ids on that date)`. -/
def group_by_date (shifts : List Shift) : List (String × List String) :=
  (dedup_first (shifts.map (·.date))).map
    (fun dt => (dt, (shifts.filter (fun s => s.date == dt)).map (·.id)))

/-- `_add_shift_coverage_constraints`: per shift,
`min_staff ≤ #assigned ≤ max_staff`. -/
def coverage_ok (shifts : List Shift) (employees : List Employee)
    (A : String → String → Bool) : Bool :=
  shifts.all fun s =>
    let n : Int := ((employees.filter (fun e => A e.id s.id)).length : Int)
    s.minStaff ≤ n && n ≤ s.maxStaff

/-- Sum of an employee's assignments over one overlap group. -/
def group_assigned_count (A : String → String → Bool) (eid : String)
    (g : List String) : Nat :=
  (g.filter (fun sid => A eid sid)).length

/-- `_add_no_double_booking_constraints` for one employee and one date's
shift ids: every overlap group carries at most one assignment. -/
def date_groups_ok (shifts : List Shift) (A : String → String → Bool)
    (eid : String) (ids : List String) : Option Bool := do
  let groups ← find_overlapping_shifts shifts ids
  pure (groups.all fun g => group_assigned_count A eid g ≤ 1)

/-- `_add_no_double_booking_constraints`: all employees, all dates. -/
def double_booking_ok (shifts : List Shift) (employees : List Employee)
    (A : String → String → Bool) : Option Bool :=
  employees.allM fun e =>
    (group_by_date shifts).allM fun p => date_groups_ok shifts A e.id p.2

/-- `_add_skill_requirements_constraints`: a shift with required skills can
only go to employees holding all of them (`assignments == 0` otherwise). -/
def skills_ok (shifts : List Shift) (employees : List Employee)
    (A : String → String → Bool) : Bool :=
  shifts.all fun s =>
    s.required_skills.isEmpty ||
      employees.all fun e =>
        s.required_skills.all (fun sk => sk ∈ e.skills) || !(A e.id s.id)

/-- `_add_availability_constraints`: no assignment on an unavailable date. -/
def availability_ok (shifts : List Shift) (employees : List Employee)
    (A : String → String → Bool) : Bool :=
  employees.all fun e =>
    shifts.all fun s => !(s.date ∈ e.unavailable_dates) || !(A e.id s.id)

/-! ### `_add_max_hours_constraints` -/

/-- Pair every shift with its week key (raising on a bad date). -/
def keyed_by_week : List Shift → Option (List (String × Shift))
  | [] => pure []
  | s :: rest => do
    let k ← get_week_key s.date
    let r ← keyed_by_week rest
    pure ((k, s) :: r)

/-- `shifts_by_week`: the week-key grouping dict, keys in first-insertion
order, each key with its shifts in input order. -/
def shifts_by_week (shifts : List Shift) : Option (List (String × List Shift)) := do
  let keyed ← keyed_by_week shifts
  pure ((dedup_first (keyed.map (·.1))).map
    (fun k => (k, (keyed.filter (fun p => p.1 == k)).map (·.2))))

/-- `sum(a * h)` over one week group for one employee: each shift's hours
are computed (raising on bad times), counted when assigned. -/
def week_group_hours (A : String → String → Bool) (eid : String) :
    List Shift → Option Int
  | [] => pure 0
  | s :: rest => do
    let h ← calculate_shift_hours s
    let t ← week_group_hours A eid rest
    pure ((if A eid s.id then h else 0) + t)

/-- One employee's weekly-hour constraints over all week groups. -/
def employee_weeks_ok (A : String → String → Bool) (e : Employee) :
    List (String × List Shift) → Option Bool
  | [] => pure true
  | (_, ss) :: rest => do
    let t ← week_group_hours A e.id ss
    let r ← employee_weeks_ok A e rest
    pure (decide (t ≤ e.maxHours) && r)

/-- Fold of `employee_weeks_ok` over every employee (the outer loop of
`_add_max_hours_constraints`; the Python loop emits every constraint, so
the fold does not short-circuit). -/
def all_employees_weeks_ok (A : String → String → Bool)
    (groups : List (String × List Shift)) : List Employee → Option Bool
  | [] => pure true
  | e :: rest => do
    let a ← employee_weeks_ok A e groups
    let b ← all_employees_weeks_ok A groups rest
    pure (a && b)

/-- `_add_max_hours_constraints`: group shifts by week key, then bound each
employee's assigned hours within every group by the employee's cap. -/
def max_hours_ok (shifts : List Shift) (employees : List Employee)
    (A : String → String → Bool) : Option Bool := do
  let groups ← shifts_by_week shifts
  all_employees_weeks_ok A groups employees

/-- Conjunction of every hard constraint the model builder emits. -/
def hard_constraints_ok (shifts : List Shift) (employees : List Employee)
    (A : String → String → Bool) : Option Bool := do
  let db ← double_booking_ok shifts employees A
  let mh ← max_hours_ok shifts employees A
  pure (coverage_ok shifts employees A && db &&
        skills_ok shifts employees A && availability_ok shifts employees A && mh)

/-- Total assigned hours of employee `eid` over the shifts whose week key
is `k` — the quantity the weekly-cap invariant actually bounds. -/
def week_key_assigned_hours (shifts : List Shift)
    (A : String → String → Bool) (eid k : String) : Option Int := do
  let keyed ← keyed_by_week shifts
  week_group_hours A eid ((keyed.filter (fun p => p.1 == k)).map (·.2))

/-- Total assigned hours of employee `eid` over the shifts falling in the
ISO calendar week `yw` (ISO year, ISO week number).  Modelled from the
spec's words "the sum of hours from assigned shifts that week" with week
meaning ISO calendar week; used to compare the code's grouping against the
spec's claim. -/
def iso_week_assigned_hours (shifts : List Shift)
    (A : String → String → Bool) (eid : String) (yw : Nat × Nat) : Option Int := do
  let keyed ← shifts.mapM (fun s => do
    let p ← iso_week_of s.date
    pure (p, s))
  week_group_hours A eid ((keyed.filter (fun p => p.1 == yw)).map (·.2))

/-! ### `_add_consecutive_days_terms`

CP-SAT variables are distinct objects regardless of their display names, so
the booleans created here are keyed by creation site: `worked e i d` is the
day-worked indicator created for employee `e` inside window number `i` for
date `d`, and `consec e i` is that window's all-days-worked indicator.  A
valuation of the whole model maps every such key (and every assignment
variable) to a boolean. -/

inductive VarKey where
  | assign (emp shift : String)
  | worked (emp : String) (window : Nat) (date : String)
  | consec (emp : String) (window : Nat)
deriving DecidableEq

/-- `sorted_dates`: the distinct shift dates, sorted; the same list is
rebuilt for every employee. -/
def sorted_dates (shifts : List Shift) : List String :=
  sort_strings (dedup_first (shifts.map (·.date)))

/-- `shifts_by_date[date]`: ids of the shifts on `date`, in input order. -/
def day_shifts (shifts : List Shift) (dt : String) : List String :=
  (shifts.filter (fun s => s.date == dt)).map (·.id)

/-- The sliding windows `sorted_dates[i : i + max_consec + 1]` for
`i < len(sorted_dates) - max_consec`. -/
def consec_windows (shifts : List Shift) (e : Employee) : List (List String) :=
  let sd := sorted_dates shifts
  (List.range (sd.length - e.maxConsec)).map
    (fun i => (sd.drop i).take (e.maxConsec + 1))

/-- The day-worked indicator booleans one employee's windows create: one
`(employee_id, date)` entry per `NewBoolVar` call, in creation order. -/
def employee_indicator_log (shifts : List Shift) (e : Employee) :
    List (String × String) :=
  ((consec_windows shifts e).map
    (fun wd => wd.map (fun dt => (e.id, dt)))).flatten

/-- The `NewBoolVar` creation log of day-worked indicators over all
employees: one `(employee_id, date)` entry per window containing the date,
in creation order. -/
def day_indicator_log (shifts : List Shift) (employees : List Employee) :
    List (String × String) :=
  (employees.map (employee_indicator_log shifts)).flatten

/-- Number of true booleans in a window's day-worked list (the value of
`sum(day_worked)`). -/
def window_worked_sum (V : VarKey → Bool) (eid : String) (i : Nat)
    (wd : List String) : Nat :=
  (wd.map (fun dt => if V (VarKey.worked eid i dt) then 1 else 0)).sum

/-- The constraints `_add_consecutive_days_terms` imposes for one window:
each day indicator equals the OR (`AddMaxEquality`) of that date's
assignment variables, and the two `OnlyEnforceIf` halves reifying
"all days worked" into the window indicator. -/
def window_constraints_ok (shifts : List Shift) (V : VarKey → Bool)
    (eid : String) (i : Nat) (wd : List String) : Bool :=
  (wd.all fun dt =>
    V (VarKey.worked eid i dt) ==
      (day_shifts shifts dt).any (fun sid => V (VarKey.assign eid sid))) &&
  (!(V (VarKey.consec eid i)) || window_worked_sum V eid i wd == wd.length) &&
  (V (VarKey.consec eid i) || decide (window_worked_sum V eid i wd < wd.length))

/-- All consecutive-days constraints of the model, over every employee and
every window. -/
def consec_constraints_ok (shifts : List Shift) (employees : List Employee)
    (V : VarKey → Bool) : Bool :=
  employees.all fun e =>
    (consec_windows shifts e).enum.all fun p =>
      window_constraints_ok shifts V e.id p.1 p.2

/-- The objective terms `_add_consecutive_days_terms` returns:
`-all_worked * weight` for every window of every employee, as
(variable, coefficient) pairs. -/
def consecutive_days_terms (shifts : List Shift) (employees : List Employee)
    (weight : Int) : List (VarKey × Int) :=
  (employees.map (fun e =>
    (consec_windows shifts e).enum.map
      (fun p => (VarKey.consec e.id p.1, -weight)))).flatten

/-! ### `_get_preference` -/

/-- `_get_preference`: `+10` for a preferred shift (checked first), `-10`
for an avoided one, `0` otherwise or when the employee has no entry in the
preferences dict. -/
def get_preference (preferences : List (String × EmployeePrefs))
    (employee_id shift_id : String) : Int :=
  match preferences.lookup employee_id with
  | none => 0
  | some emp_prefs =>
    if shift_id ∈ emp_prefs.preferred_shifts then 10
    else if shift_id ∈ emp_prefs.avoid_shifts then -10
    else 0

/-! ### Solve orchestrator (`solve`, `_status_to_string`,
`_extract_solution`, `_calculate_coverage_stats`) -/

inductive CpStatus where
  | OPTIMAL | FEASIBLE | INFEASIBLE | MODEL_INVALID | UNKNOWN
deriving DecidableEq

/-- `_status_to_string`. -/
def status_to_string : CpStatus → String
  | .OPTIMAL => "OPTIMAL"
  | .FEASIBLE => "FEASIBLE"
  | .INFEASIBLE => "INFEASIBLE"
  | .MODEL_INVALID => "MODEL_INVALID"
  | .UNKNOWN => "UNKNOWN"

/-- One element of the output `assignments` list. -/
structure AssignmentEntry where
  employee_id : String
  shift_id : String
  date : String
  start_time : String
  end_time : String
  hours : Int
deriving DecidableEq

/-- `coverage_stats`; the percentage is modelled over `ℚ` (the Python
float arithmetic is exact on the integral ratios the claims mention). -/
structure CoverageStats where
  total_shifts : Nat
  fully_covered_shifts : Nat
  coverage_percentage : ℚ
deriving DecidableEq

/-- The `statistics` sub-dictionary: the solver counters are always
present; the two extra keys are added only on success. -/
structure Statistics where
  num_branches : Nat
  num_conflicts : Nat
  is_optimal : Bool
  total_assigned_shifts : Option Nat := none
  coverage_stats : Option CoverageStats := none
deriving DecidableEq

/-- The result dictionary `solve` returns.  `statistics = none` would model
a result carrying no `statistics` key at all; the solve and wall-time
numbers are threaded through opaquely as integers. -/
structure SolveResult where
  status : String
  objective_value : Option Int
  solve_time_seconds : Int
  assignments : List AssignmentEntry
  statistics : Option Statistics
deriving DecidableEq

/-- `_extract_solution`: walk `self.assignments` in creation order (shifts
outer, employees inner) and emit an entry per true assignment variable,
annotating each with its shift's data and computed hours. -/
def extract_solution (shifts : List Shift) (employees : List Employee)
    (value : String → String → Bool) : Option (List AssignmentEntry) :=
  ((shifts.map (fun s =>
      (employees.filter (fun e => value e.id s.id)).map (fun e => (e, s)))).flatten).mapM
    (fun p => do
      let h ← calculate_shift_hours p.2
      pure { employee_id := p.1.id, shift_id := p.2.id, date := p.2.date,
             start_time := p.2.start_time, end_time := p.2.end_time,
             hours := h })

/-- Assigned count of one shift in the extracted solution (the
`shift_counts` dict, read back with default 0). -/
def shift_count (assignments : List AssignmentEntry) (sid : String) : Nat :=
  (assignments.filter (fun a => a.shift_id == sid)).length

/-- `_calculate_coverage_stats`. -/
def calculate_coverage_stats (shifts : List Shift)
    (assignments : List AssignmentEntry) : CoverageStats :=
  let total_shifts := shifts.length
  let fully_covered :=
    (shifts.filter (fun s => s.minStaff ≤ (shift_count assignments s.id : Int))).length
  { total_shifts := total_shifts,
    fully_covered_shifts := fully_covered,
    coverage_percentage :=
      if 0 < total_shifts then (fully_covered : ℚ) / (total_shifts : ℚ) * 100 else 0 }

/-- `solve`: build the base result (status string, objective on success
only, solver counters always), then on `OPTIMAL`/`FEASIBLE` extract the
solution and add the two success-only statistics.  The solver's outputs
(status, variable values, objective, wall time, counters) are parameters:
the search itself is the external collaborator. -/
def solve (shifts : List Shift) (employees : List Employee)
    (status : CpStatus) (value : String → String → Bool)
    (objective wall_time : Int) (num_branches num_conflicts : Nat) :
    Option SolveResult :=
  let success := status = CpStatus.OPTIMAL ∨ status = CpStatus.FEASIBLE
  let base : SolveResult :=
    { status := status_to_string status,
      objective_value := if success then some objective else none,
      solve_time_seconds := wall_time,
      assignments := [],
      statistics := some { num_branches := num_branches,
                           num_conflicts := num_conflicts,
                           is_optimal := status = CpStatus.OPTIMAL } }
  if success then do
    let asg ← extract_solution shifts employees value
    pure { base with
           assignments := asg,
           statistics := some { num_branches := num_branches,
                                num_conflicts := num_conflicts,
                                is_optimal := status = CpStatus.OPTIMAL,
                                total_assigned_shifts := some asg.length,
                                coverage_stats :=
                                  some (calculate_coverage_stats shifts asg) } }
  else pure base

/-! ### Auxiliary definitions used by the statements -/

/-- Two-digit zero-padded decimal rendering: the "HH"/"MM" fields of a
well-formed clock time. -/
def pad2 (n : Nat) : List Char :=
  if n < 10 then '0' :: render_nat n else render_nat n

/-- The data `_get_week_key` actually encodes into its key: the *calendar*
year together with the ISO week number. -/
def week_key_data (s : String) : Option (Nat × Nat) := do
  let (y, m, d) ← parse_date s
  pure (y, (isocalendar y m d).2)

/-! ### Concrete instances used by witnesses and counterexamples -/

/-- Three shifts on one date: `B` and `C` both overlap the seed `A` but not
each other. -/
def ovShifts : List Shift :=
  [{ id := "A", date := "2025-03-10", start_time := "09:00", end_time := "17:00" },
   { id := "B", date := "2025-03-10", start_time := "09:00", end_time := "10:00" },
   { id := "C", date := "2025-03-10", start_time := "16:00", end_time := "17:00" }]

/-- Two mandatory shifts in the same ISO week (2025-W01) but on the two
sides of a calendar year boundary. -/
def wkShifts : List Shift :=
  [{ id := "S1", date := "2024-12-30", start_time := "09:00", end_time := "17:00",
     min_staff := some 1 },
   { id := "S2", date := "2025-01-01", start_time := "09:00", end_time := "17:00",
     min_staff := some 1 }]

/-- The only employee of the weekly-cap instance, capped at 10 hours. -/
def wkEmployee : Employee :=
  { id := "E1", max_hours_per_week := some 10 }

/-- The all-true assignment valuation. -/
def all_assigned : String → String → Bool := fun _ _ => true

/-- Three single-shift dates in a row. -/
def winShifts : List Shift :=
  [{ id := "S1", date := "2025-03-10", start_time := "09:00", end_time := "17:00" },
   { id := "S2", date := "2025-03-11", start_time := "09:00", end_time := "17:00" },
   { id := "S3", date := "2025-03-12", start_time := "09:00", end_time := "17:00" }]

/-- An employee with `max_consecutive_days = 1`, giving the two overlapping
windows `[d1, d2]` and `[d2, d3]` over `winShifts`. -/
def winEmployee : Employee :=
  { id := "E2", max_consecutive_days := some 1 }

/-- The everything-true model valuation. -/
def all_true_valuation : VarKey → Bool := fun _ => true

/-- Four shifts of which the fourth requires two staff. -/
def cov4Shifts : List Shift :=
  [{ id := "S1", date := "2025-03-10", start_time := "09:00", end_time := "17:00" },
   { id := "S2", date := "2025-03-10", start_time := "09:00", end_time := "17:00" },
   { id := "S3", date := "2025-03-11", start_time := "09:00", end_time := "17:00" },
   { id := "S4", date := "2025-03-11", start_time := "09:00", end_time := "17:00",
     min_staff := some 2 }]

/-- An extracted solution assigning employee `E3` to every one of the four
shifts: the first three reach their staffing floor, `S4` stays short. -/
def cov4Assignments : List AssignmentEntry :=
  [{ employee_id := "E3", shift_id := "S1", date := "2025-03-10",
     start_time := "09:00", end_time := "17:00", hours := 8 },
   { employee_id := "E3", shift_id := "S2", date := "2025-03-10",
     start_time := "09:00", end_time := "17:00", hours := 8 },
   { employee_id := "E3", shift_id := "S3", date := "2025-03-11",
     start_time := "09:00", end_time := "17:00", hours := 8 },
   { employee_id := "E3", shift_id := "S4", date := "2025-03-11",
     start_time := "09:00", end_time := "17:00", hours := 8 }]

/-- A preferences table whose single employee lists shift `s1` both as
preferred and as avoided. -/
def c10Prefs : List (String × EmployeePrefs) :=
  [("alice", { preferred_shifts := ["s1"], avoid_shifts := ["s1"] })]

/-- An overnight shift from 22:00 to 06:00. -/
def c7Shift : Shift :=
  { id := "s", date := "2025-01-01", start_time := "22:00", end_time := "06:00" }

/-! ## Helper lemmas -/

theorem digit_char_isDigit (n : Nat) : (digit_char n).isDigit = true := by
  unfold digit_char
  split <;> decide

theorem digit_val_digit_char {n : Nat} (h : n < 10) :
    digit_val (digit_char n) = n := by
  interval_cases n <;> decide

theorem parse_digits_append (cs : List Char) (c : Char) :
    parse_digits (cs ++ [c]) = parse_digits cs * 10 + digit_val c := by
  simp [parse_digits, List.foldl_append]

theorem parse_digits_cons_zero (cs : List Char) :
    parse_digits ('0' :: cs) = parse_digits cs := by
  simp [parse_digits, digit_val]

theorem render_nat_aux_isDigit :
    ∀ fuel n, ∀ c ∈ render_nat_aux fuel n, c.isDigit = true := by
  intro fuel
  induction fuel with
  | zero => intro n c hc; simp [render_nat_aux] at hc
  | succ fuel ih =>
    intro n c hc
    unfold render_nat_aux at hc
    by_cases hn : n = 0
    · simp [hn] at hc
    · rw [if_neg hn] at hc
      rcases List.mem_append.mp hc with h | h
      · exact ih _ c h
      · rcases List.mem_singleton.mp h with rfl
        exact digit_char_isDigit _

theorem render_nat_isDigit (n : Nat) : ∀ c ∈ render_nat n, c.isDigit = true := by
  intro c hc
  unfold render_nat at hc
  by_cases hn : n = 0
  · rw [if_pos hn] at hc; rcases List.mem_singleton.mp hc with rfl; decide
  · rw [if_neg hn] at hc; exact render_nat_aux_isDigit _ _ c hc

theorem render_nat_aux_parse :
    ∀ fuel n, n ≤ fuel → parse_digits (render_nat_aux fuel n) = n := by
  intro fuel
  induction fuel with
  | zero =>
    intro n hn
    interval_cases n
    simp [render_nat_aux, parse_digits]
  | succ fuel ih =>
    intro n hn
    unfold render_nat_aux
    by_cases h0 : n = 0
    · simp [h0, parse_digits]
    · have h1 : 0 < n := Nat.pos_of_ne_zero h0
      have h2 : n / 10 ≤ fuel := by
        have h3 : n / 10 < n := Nat.div_lt_self h1 (by norm_num)
        omega
      rw [if_neg h0, parse_digits_append, ih (n / 10) h2,
        digit_val_digit_char (Nat.mod_lt _ (by norm_num))]
      omega

theorem render_nat_parse (n : Nat) : parse_digits (render_nat n) = n := by
  unfold render_nat
  by_cases h0 : n = 0
  · simp [h0, parse_digits, digit_val]
  · rw [if_neg h0]; exact render_nat_aux_parse _ _ (Nat.le_succ n)

theorem render_nat_ne_nil (n : Nat) : render_nat n ≠ [] := by
  unfold render_nat
  by_cases h0 : n = 0
  · simp [h0]
  · rw [if_neg h0]
    unfold render_nat_aux
    rw [if_neg h0]
    simp

theorem py_nat_render (n : Nat) : py_nat (render_nat n) = some n := by
  unfold py_nat
  rw [if_pos ⟨render_nat_ne_nil n, List.all_eq_true.mpr (render_nat_isDigit n)⟩,
    render_nat_parse]

theorem render_nat_injective {a b : Nat} (h : render_nat a = render_nat b) :
    a = b := by
  have := py_nat_render a
  rw [h, py_nat_render b] at this
  exact (Option.some.injEq _ _).mp this.symm

theorem py_nat_ne_some_of_not_digit {cs : List Char} {c : Char} (hc : c ∈ cs)
    (h : c.isDigit = false) (n : Nat) : py_nat cs ≠ some n := by
  intro hcontra
  unfold py_nat at hcontra
  by_cases hcond : cs ≠ [] ∧ cs.all Char.isDigit
  · have := List.all_eq_true.mp hcond.2 c hc
    rw [h] at this; exact Bool.false_ne_true this
  · rw [if_neg hcond] at hcontra; exact Option.noConfusion hcontra

theorem py_int_of_digits :
    ∀ {cs : List Char}, cs ≠ [] → (∀ c ∈ cs, c.isDigit = true) →
      py_int cs = some (parse_digits cs : Int)
  | [], hne, _ => absurd rfl hne
  | c :: rest, _, hd => by
    have hnat : py_nat (c :: rest) = some (parse_digits (c :: rest)) := by
      unfold py_nat
      rw [if_pos ⟨List.cons_ne_nil _ _, List.all_eq_true.mpr hd⟩]
    have hc : c ≠ '-' := by
      intro hcc
      have := hd c (List.mem_cons_self _ _)
      rw [hcc] at this
      exact absurd this (by decide)
    unfold py_int
    split
    · rename_i rest' heq
      exact absurd (List.cons.inj heq).1 hc
    · rw [hnat]; rfl

theorem split_char_ne_nil {sep : Char} (cs : List Char) : split_char sep cs ≠ [] := by
  cases cs with
  | nil => simp [split_char]
  | cons c rest =>
    unfold split_char
    cases h : split_char sep rest with
    | nil => simp
    | cons g gs => by_cases hc : c = sep <;> simp [hc]

theorem split_char_no_sep {sep : Char} :
    ∀ (cs : List Char), (∀ c ∈ cs, c ≠ sep) → split_char sep cs = [cs]
  | [], _ => rfl
  | c :: rest, h => by
    have hr := split_char_no_sep rest (fun x hx => h x (List.mem_cons_of_mem _ hx))
    have hc : ¬(c = sep) := h c (List.mem_cons_self _ _)
    simp [split_char, hr, hc]

theorem split_char_before_sep {sep : Char} :
    ∀ (cs ds : List Char), (∀ c ∈ cs, c ≠ sep) →
      split_char sep (cs ++ sep :: ds) = cs :: split_char sep ds
  | [], ds, _ => by
    cases hg : split_char sep ds with
    | nil => exact absurd hg (split_char_ne_nil ds)
    | cons g gs => simp [split_char, hg]
  | c :: rest, ds, h => by
    have hr := split_char_before_sep rest ds (fun x hx => h x (List.mem_cons_of_mem _ hx))
    have hc : ¬(c = sep) := h c (List.mem_cons_self _ _)
    simp only [List.cons_append]
    simp [split_char, hr, hc]

theorem append_sep_inj {sep : Char} :
    ∀ {a1 a2 r1 r2 : List Char}, (∀ c ∈ a1, c ≠ sep) → (∀ c ∈ a2, c ≠ sep) →
      a1 ++ sep :: r1 = a2 ++ sep :: r2 → a1 = a2 ∧ r1 = r2 := by
  intro a1
  induction a1 with
  | nil =>
    intro a2 r1 r2 _ h2 heq
    cases a2 with
    | nil =>
      refine ⟨rfl, ?_⟩
      have := (List.cons.inj heq).2
      simpa using this
    | cons c a2' =>
      exfalso
      have := (List.cons.inj heq).1
      exact h2 c (List.mem_cons_self _ _) this.symm
  | cons c a1' ih =>
    intro a2 r1 r2 h1 h2 heq
    cases a2 with
    | nil =>
      exfalso
      have := (List.cons.inj heq).1
      exact h1 c (List.mem_cons_self _ _) this
    | cons c' a2' =>
      obtain ⟨hc, hrest⟩ := List.cons.inj heq
      obtain ⟨ha, hr⟩ := ih (fun x hx => h1 x (List.mem_cons_of_mem _ hx))
        (fun x hx => h2 x (List.mem_cons_of_mem _ hx)) hrest
      exact ⟨by rw [hc, ha], hr⟩

theorem isDigit_ne_of_not_digit {c sep : Char} (hc : c.isDigit = true)
    (hsep : sep.isDigit = false) : c ≠ sep := by
  intro h
  rw [h, hsep] at hc
  exact Bool.false_ne_true hc

theorem pad2_digits (n : Nat) : ∀ c ∈ pad2 n, c.isDigit = true := by
  intro c hc
  unfold pad2 at hc
  by_cases h : n < 10
  · rw [if_pos h] at hc
    rcases List.mem_cons.mp hc with rfl | hmem
    · decide
    · exact render_nat_isDigit n c hmem
  · rw [if_neg h] at hc
    exact render_nat_isDigit n c hc

theorem pad2_ne_nil (n : Nat) : pad2 n ≠ [] := by
  unfold pad2
  by_cases h : n < 10
  · rw [if_pos h]; simp
  · rw [if_neg h]; exact render_nat_ne_nil n

theorem py_int_pad2 (n : Nat) : py_int (pad2 n) = some (n : Int) := by
  rw [py_int_of_digits (pad2_ne_nil n) (pad2_digits n)]
  unfold pad2
  by_cases h : n < 10
  · rw [if_pos h, parse_digits_cons_zero, render_nat_parse]
  · rw [if_neg h, render_nat_parse]

theorem parse_time_hhmm (h m : Nat) :
    parse_time (String.mk (pad2 h ++ ':' :: pad2 m)) =
      some ((h : Int) * 60 + (m : Int)) := by
  unfold parse_time
  have hsplit :
      split_char ':' (String.mk (pad2 h ++ ':' :: pad2 m)).data =
        pad2 h :: [pad2 m] := by
    show split_char ':' (pad2 h ++ ':' :: pad2 m) = pad2 h :: [pad2 m]
    rw [split_char_before_sep _ _
      (fun c hc => isDigit_ne_of_not_digit (pad2_digits h c hc) (by decide)),
      split_char_no_sep _
      (fun c hc => isDigit_ne_of_not_digit (pad2_digits m c hc) (by decide))]
  rw [hsplit]
  show (py_int (pad2 h)).bind _ = _
  rw [py_int_pad2 h]
  show (py_int (pad2 m)).bind _ = _
  rw [py_int_pad2 m]
  rfl

/-! ## Claim C9 -/

/-- Claim C9 (amended): `parse_time` maps every well-formed clock string
"HH:MM" (hours at most 23, minutes at most 59) to its minutes since
midnight, which lie in 0–1439, and a string without a second
colon-separated field raises an error; out-of-range numeric fields,
however, are combined without validation (see the counterexample). -/
theorem parse_time_range (h m : Nat) (hh : h ≤ 23) (hm : m ≤ 59) :
    parse_time (String.mk (pad2 h ++ ':' :: pad2 m)) =
      some ((h : Int) * 60 + (m : Int)) ∧
    0 ≤ (h : Int) * 60 + (m : Int) ∧ (h : Int) * 60 + (m : Int) ≤ 1439 ∧
    parse_time "0900" = none := by
  refine ⟨parse_time_hhmm h m, ?_, ?_, by decide⟩
  · positivity
  · have hh' : (h : Int) ≤ 23 := by exact_mod_cast hh
    have hm' : (m : Int) ≤ 59 := by exact_mod_cast hm
    omega

/-- Claim C9 witness: the well-formed time "09:05" parses to 545 minutes,
inside the valid range. -/
theorem parse_time_range_witness :
    parse_time (String.mk (pad2 9 ++ ':' :: pad2 5)) =
      some ((9 : Int) * 60 + (5 : Int)) ∧
    0 ≤ (9 : Int) * 60 + (5 : Int) ∧ (9 : Int) * 60 + (5 : Int) ≤ 1439 := by
  have h := parse_time_range 9 5 (by norm_num) (by norm_num)
  exact ⟨h.1, h.2.1, h.2.2.1⟩

/-- Claim C9 counterexample: the malformed time "25:99" is not rejected —
`_parse_time` returns 1599 minutes, outside the claimed 0–1439 range,
rather than raising an input error. -/
theorem parse_time_out_of_range :
    parse_time "25:99" = some 1599 ∧ ¬((1599 : Int) ≤ 1439) := by
  exact ⟨by decide, by decide⟩

/-! ## Claim C10 -/

/-- Claim C10: a shift identifier present in both an employee's
`preferred_shifts` and `avoid_shifts` lists scores +10 (the preferred list
is checked first), and an employee absent from the preferences dict scores
0 for every shift. -/
theorem get_preference_both_and_absent
    (preferences : List (String × EmployeePrefs)) (employee_id shift_id : String) :
    (∀ p, preferences.lookup employee_id = some p →
      shift_id ∈ p.preferred_shifts → shift_id ∈ p.avoid_shifts →
      get_preference preferences employee_id shift_id = 10) ∧
    (preferences.lookup employee_id = none →
      get_preference preferences employee_id shift_id = 0) := by
  constructor
  · intro p hp hpref _
    unfold get_preference
    rw [hp]
    simp [hpref]
  · intro hnone
    unfold get_preference
    rw [hnone]

/-- Claim C10 witness: in `c10Prefs` the doubly-listed shift scores +10 for
its employee, and an unlisted employee scores 0. -/
theorem get_preference_both_and_absent_witness :
    get_preference c10Prefs "alice" "s1" = 10 ∧
    get_preference c10Prefs "bob" "s1" = 0 :=
  ⟨(get_preference_both_and_absent c10Prefs "alice" "s1").1 _ rfl
      (by decide) (by decide),
   (get_preference_both_and_absent c10Prefs "bob" "s1").2 rfl⟩

/-! ## Claim C7 -/

/-- Claim C7 (amended): `_calculate_shift_hours` computes end minus start
in minutes, adds 1440 exactly when that difference is negative, and
floor-divides by 60; a 22:00–06:00 shift yields 8 hours; and a shift
ending exactly at midnight the next day yields a *nonnegative* duration,
positive whenever the shift starts at or before 23:00 (a shorter tail such
as 23:30–00:00 floors to 0, see the counterexample). -/
theorem calculate_shift_hours_formula (s : Shift) (st en : Int)
    (hst : parse_time s.start_time = some st)
    (hen : parse_time s.end_time = some en) :
    calculate_shift_hours s =
      some ((if en - st < 0 then en - st + 1440 else en - st).fdiv 60) ∧
    (s.start_time = "22:00" → s.end_time = "06:00" →
      calculate_shift_hours s = some 8) ∧
    (s.end_time = "00:00" → 0 < st → st ≤ 1380 →
      0 < (if en - st < 0 then en - st + 1440 else en - st).fdiv 60) := by
  have hmain : calculate_shift_hours s =
      some ((if en - st < 0 then en - st + 1440 else en - st).fdiv 60) := by
    unfold calculate_shift_hours
    rw [hst]
    show (parse_time s.end_time).bind _ = _
    rw [hen]
    show some ((((if en < st then en + 24 * 60 else en)) - st).fdiv 60) = _
    rcases lt_or_ge en st with hlt | hge
    · rw [if_pos hlt, if_pos (by omega)]
      have harith : en + 24 * 60 - st = en - st + 1440 := by ring
      rw [harith]
    · rw [if_neg (not_lt.mpr hge), if_neg (by omega)]
  refine ⟨hmain, ?_, ?_⟩
  · intro h22 h06
    rw [h22] at hst
    rw [h06] at hen
    have h1320 : parse_time "22:00" = some (1320 : Int) := by decide
    have h360 : parse_time "06:00" = some (360 : Int) := by decide
    rw [h1320] at hst
    rw [h360] at hen
    obtain rfl : (1320 : Int) = st := Option.some.inj hst
    obtain rfl : (360 : Int) = en := Option.some.inj hen
    rw [hmain]
    decide
  · intro h00 hpos hle
    rw [h00] at hen
    have h0 : parse_time "00:00" = some (0 : Int) := by decide
    rw [h0] at hen
    obtain rfl : (0 : Int) = en := Option.some.inj hen
    rw [if_pos (by omega), Int.fdiv_eq_ediv _ (by norm_num)]
    omega

/-- Claim C7 witness: the overnight 22:00–06:00 shift computes 8 hours. -/
theorem calculate_shift_hours_formula_witness :
    calculate_shift_hours c7Shift = some 8 :=
  (calculate_shift_hours_formula c7Shift 1320 360 (by decide) (by decide)).2.1
    rfl rfl

/-- Claim C7 counterexample: the 23:30–00:00 shift ends exactly at midnight
the next day yet computes 0 hours, which is not positive. -/
theorem midnight_shift_zero_hours :
    calculate_shift_hours ⟨"n", "2025-01-01", "23:30", "00:00", none, none, []⟩ =
      some 0 ∧ ¬(0 : Int) < 0 :=
  ⟨by decide, by decide⟩

/-! ## Claim C1 -/

theorem option_bind_some {α β : Type} {x : Option α} {f : α → Option β} {b : β}
    (h : (x >>= f) = some b) : ∃ a, x = some a ∧ f a = some b := by
  cases x with
  | none => exact Option.noConfusion h
  | some a => exact ⟨a, rfl, h⟩

theorem overlap_group_all_overlap (shifts : List Shift) (seed : String) :
    ∀ (rest : List String) (g : List String),
      overlap_group shifts seed rest = some g →
      ∀ x ∈ g,
        shifts_overlap (shift_lookup shifts seed) (shift_lookup shifts x) = some true
  | [], g, h => by
    intro x hx
    have hnil : ([] : List String) = g := Option.some.inj h
    rw [← hnil] at hx
    exact absurd hx (List.not_mem_nil x)
  | sid2 :: rest, g, h => by
    intro x hx
    unfold overlap_group at h
    obtain ⟨b, hb, h1⟩ := option_bind_some h
    obtain ⟨tail, htail, h2⟩ := option_bind_some h1
    have hg : (if b then sid2 :: tail else tail) = g := Option.some.inj h2
    cases b with
    | true =>
      rw [if_pos rfl] at hg
      rw [← hg] at hx
      rcases List.mem_cons.mp hx with rfl | hmem
      · exact hb
      · exact overlap_group_all_overlap shifts seed rest tail htail x hmem
    | false =>
      rw [if_neg (by simp)] at hg
      rw [← hg] at hx
      exact overlap_group_all_overlap shifts seed rest tail htail x hx

/-- Claim C1 (amended): over the shifts of one date, every group the
detector returns has at least two members and is a *star* around its first
member: every later member overlaps the seed (the group's first shift).
Pairwise overlap among all members does not hold in general — see the
counterexample. -/
theorem find_overlapping_shifts_star (shifts : List Shift) :
    ∀ (ids : List String) (gs : List (List String)),
      find_overlapping_shifts shifts ids = some gs →
      ∀ g ∈ gs, 2 ≤ g.length ∧ ∃ seed rest, g = seed :: rest ∧
        ∀ x ∈ rest,
          shifts_overlap (shift_lookup shifts seed) (shift_lookup shifts x) = some true
  | [], gs, h => by
    intro g hg
    have hnil : ([] : List (List String)) = gs := Option.some.inj h
    rw [← hnil] at hg
    exact absurd hg (List.not_mem_nil g)
  | sid1 :: rest, gs, h => by
    intro g hg
    unfold find_overlapping_shifts at h
    obtain ⟨g', hg', h1⟩ := option_bind_some h
    obtain ⟨others, hothers, h2⟩ := option_bind_some h1
    have hgs : (if 1 < (sid1 :: g').length then (sid1 :: g') :: others else others) = gs :=
      Option.some.inj h2
    by_cases hlen : 1 < (sid1 :: g').length
    · rw [if_pos hlen] at hgs
      rw [← hgs] at hg
      rcases List.mem_cons.mp hg with rfl | hmem
      · refine ⟨by simpa using hlen, sid1, g', rfl, ?_⟩
        exact overlap_group_all_overlap shifts sid1 rest g' hg'
      · exact find_overlapping_shifts_star shifts rest others hothers g hmem
    · rw [if_neg hlen] at hgs
      rw [← hgs] at hg
      exact find_overlapping_shifts_star shifts rest others hothers g hg

/-- Claim C1 witness: on the three same-date shifts of `ovShifts` the
detector returns the single group `["A", "B", "C"]`, which has at least two
members and whose later members all overlap the seed `A`. -/
theorem find_overlapping_shifts_star_witness :
    2 ≤ (["A", "B", "C"] : List String).length ∧
    ∃ seed rest, (["A", "B", "C"] : List String) = seed :: rest ∧
      ∀ x ∈ rest,
        shifts_overlap (shift_lookup ovShifts seed) (shift_lookup ovShifts x) =
          some true :=
  find_overlapping_shifts_star ovShifts ["A", "B", "C"] [["A", "B", "C"]]
    (by decide) ["A", "B", "C"] (by decide)

/-- Claim C1 counterexample: on one calendar date, the detector groups
`B` (09:00–10:00) and `C` (16:00–17:00) together because both overlap the
seed `A` (09:00–17:00), yet `B` and `C` do not overlap each other — the
claimed pairwise overlap inside groups is false. -/
theorem overlap_group_not_pairwise :
    find_overlapping_shifts ovShifts ["A", "B", "C"] = some [["A", "B", "C"]] ∧
    shifts_overlap (shift_lookup ovShifts "B") (shift_lookup ovShifts "C") =
      some false :=
  ⟨by decide, by decide⟩

/-! ## Claim C4 -/

/-- Claim C4 (amended): whenever the solver reports `INFEASIBLE`,
`MODEL_INVALID` or `UNKNOWN`, `solve` returns that status string with an
empty assignments list, no objective value, and *no coverage statistics*
(no `coverage_stats`, no `total_assigned_shifts`) — but the `statistics`
dictionary itself is still present, holding the solver counters. -/
theorem solve_failure_result (shifts : List Shift) (employees : List Employee)
    (status : CpStatus) (value : String → String → Bool)
    (objective wall_time : Int) (nb nc : Nat)
    (hs : status = CpStatus.INFEASIBLE ∨ status = CpStatus.MODEL_INVALID ∨
          status = CpStatus.UNKNOWN) :
    solve shifts employees status value objective wall_time nb nc =
      some { status := status_to_string status,
             objective_value := none,
             solve_time_seconds := wall_time,
             assignments := [],
             statistics := some { num_branches := nb, num_conflicts := nc,
                                  is_optimal := false,
                                  total_assigned_shifts := none,
                                  coverage_stats := none } } := by
  rcases hs with rfl | rfl | rfl <;> rfl

/-- Claim C4 witness: an `INFEASIBLE` outcome produces exactly the empty
solution with counters-only statistics. -/
theorem solve_failure_result_witness :
    solve [] [] CpStatus.INFEASIBLE (fun _ _ => false) 0 0 0 0 =
      some { status := status_to_string CpStatus.INFEASIBLE,
             objective_value := none,
             solve_time_seconds := 0,
             assignments := [],
             statistics := some { num_branches := 0, num_conflicts := 0,
                                  is_optimal := false,
                                  total_assigned_shifts := none,
                                  coverage_stats := none } } :=
  solve_failure_result [] [] CpStatus.INFEASIBLE (fun _ _ => false) 0 0 0 0
    (Or.inl rfl)

/-- Claim C4 counterexample: on `INFEASIBLE` the assignments list is empty
as claimed, but the result is *not* statistics-free: the `statistics`
dictionary is present (with the solver counters), so "no statistics" fails
as stated. -/
theorem solve_infeasible_statistics_present :
    (solve [] [] CpStatus.INFEASIBLE (fun _ _ => false) 0 0 0 0).map
        (fun r => r.assignments) = some [] ∧
    (solve [] [] CpStatus.INFEASIBLE (fun _ _ => false) 0 0 0 0).map
        (fun r => r.statistics) ≠ some none :=
  ⟨by decide, by decide⟩

/-! ## Claim C8 -/

/-- Claim C8: the coverage statistics report `total_shifts` as the number
of shifts, `fully_covered_shifts` as the number of shifts whose assigned
count reaches their `min_staff`, and `coverage_percentage` as
fully ÷ total × 100 (0 with no shifts); on the concrete four-shift
instance with three covered shifts the percentage is 75. -/
theorem coverage_stats_correct :
    (∀ (shifts : List Shift) (assignments : List AssignmentEntry),
      (calculate_coverage_stats shifts assignments).total_shifts = shifts.length ∧
      (calculate_coverage_stats shifts assignments).fully_covered_shifts =
        (shifts.filter (fun s =>
          s.minStaff ≤ ((assignments.map (fun a => a.shift_id)).count s.id : Int))).length ∧
      (calculate_coverage_stats shifts assignments).coverage_percentage =
        (if 0 < shifts.length
         then ((calculate_coverage_stats shifts assignments).fully_covered_shifts : ℚ) /
           (shifts.length : ℚ) * 100
         else 0)) ∧
    (calculate_coverage_stats cov4Shifts cov4Assignments).total_shifts = 4 ∧
    (calculate_coverage_stats cov4Shifts cov4Assignments).fully_covered_shifts = 3 ∧
    (calculate_coverage_stats cov4Shifts cov4Assignments).coverage_percentage = 75 := by
  have hgen : ∀ (shifts : List Shift) (assignments : List AssignmentEntry),
      (calculate_coverage_stats shifts assignments).total_shifts = shifts.length ∧
      (calculate_coverage_stats shifts assignments).fully_covered_shifts =
        (shifts.filter (fun s =>
          s.minStaff ≤ ((assignments.map (fun a => a.shift_id)).count s.id : Int))).length ∧
      (calculate_coverage_stats shifts assignments).coverage_percentage =
        (if 0 < shifts.length
         then ((calculate_coverage_stats shifts assignments).fully_covered_shifts : ℚ) /
           (shifts.length : ℚ) * 100
         else 0) := by
    intro shifts assignments
    refine ⟨rfl, ?_, rfl⟩
    unfold calculate_coverage_stats
    dsimp only
    congr 1
    apply List.filter_congr
    intro s _
    have hcount : (assignments.map (fun a => a.shift_id)).count s.id =
        shift_count assignments s.id := by
      rw [List.count_eq_countP, List.countP_map, List.countP_eq_length_filter]
      rfl
    rw [hcount]
  have htot : (calculate_coverage_stats cov4Shifts cov4Assignments).total_shifts = 4 := by
    decide
  have hful : (calculate_coverage_stats cov4Shifts cov4Assignments).fully_covered_shifts = 3 := by
    decide
  refine ⟨hgen, htot, hful, ?_⟩
  rw [(hgen cov4Shifts cov4Assignments).2.2, hful,
    show cov4Shifts.length = 4 from rfl]
  norm_num

/-! ## Claim C5 -/

theorem sum_ite_le_length {α : Type} (f : α → Bool) :
    ∀ (l : List α), ((l.map (fun x => if f x then (1 : Nat) else 0)).sum ≤ l.length)
  | [] => le_refl 0
  | x :: l => by
    have ih := sum_ite_le_length f l
    simp only [List.map_cons, List.sum_cons, List.length_cons]
    by_cases h : f x
    · rw [if_pos h]; omega
    · rw [if_neg h]; omega

theorem sum_ite_eq_length_iff {α : Type} (f : α → Bool) :
    ∀ (l : List α),
      ((l.map (fun x => if f x then (1 : Nat) else 0)).sum = l.length ↔
        ∀ x ∈ l, f x = true)
  | [] => by simp
  | x :: l => by
    have ih := sum_ite_eq_length_iff f l
    have hle := sum_ite_le_length f l
    simp only [List.map_cons, List.sum_cons, List.length_cons, List.mem_cons]
    by_cases h : f x
    · rw [if_pos h]
      constructor
      · intro heq y hy
        rcases hy with rfl | hy
        · exact h
        · exact ih.mp (by omega) y hy
      · intro hall
        have := ih.mpr (fun y hy => hall y (Or.inr hy))
        omega
    · rw [if_neg h]
      constructor
      · intro heq
        exfalso
        omega
      · intro hall
        exact absurd (hall x (Or.inl rfl)) h

/-- Claim C5: sliding windows of `max_consecutive_days + 1` sorted dates
are formed exactly when the horizon holds at least that many shift dates;
in every valuation satisfying the emitted constraints, each window's
indicator is true iff every day of the window is worked (day-worked being
the OR of that date's assignments); and each window contributes the
objective term `-weight` times its indicator. -/
theorem consec_days_reified (shifts : List Shift) (employees : List Employee)
    (e : Employee) (he : e ∈ employees) (V : VarKey → Bool)
    (hV : consec_constraints_ok shifts employees V = true) (weight : Int) :
    ((sorted_dates shifts).length < e.maxConsec + 1 → consec_windows shifts e = []) ∧
    (e.maxConsec + 1 ≤ (sorted_dates shifts).length → consec_windows shifts e ≠ []) ∧
    (∀ i wd, (i, wd) ∈ (consec_windows shifts e).enum →
      ((V (VarKey.consec e.id i) = true ↔
        ∀ dt ∈ wd,
          (day_shifts shifts dt).any (fun sid => V (VarKey.assign e.id sid)) = true) ∧
       (VarKey.consec e.id i, -weight) ∈ consecutive_days_terms shifts employees weight)) := by
  refine ⟨?_, ?_, ?_⟩
  · intro hlt
    have h0 : (sorted_dates shifts).length - e.maxConsec = 0 := by omega
    simp [consec_windows, h0]
  · intro hge hcontra
    have hlen : (consec_windows shifts e).length =
        (sorted_dates shifts).length - e.maxConsec := by
      simp [consec_windows]
    rw [hcontra] at hlen
    simp at hlen
    omega
  · intro i wd hiw
    have hwin := List.all_eq_true.mp
      (List.all_eq_true.mp hV e he) (i, wd) hiw
    unfold window_constraints_ok at hwin
    simp only [Bool.and_eq_true] at hwin
    obtain ⟨⟨hday, himp1⟩, himp2⟩ := hwin
    have hday' : ∀ dt ∈ wd,
        V (VarKey.worked e.id i dt) =
          (day_shifts shifts dt).any (fun sid => V (VarKey.assign e.id sid)) := by
      intro dt hdt
      exact beq_iff_eq.mp (List.all_eq_true.mp hday dt hdt)
    have hsum : window_worked_sum V e.id i wd = wd.length ↔
        ∀ dt ∈ wd, V (VarKey.worked e.id i dt) = true :=
      sum_ite_eq_length_iff (fun dt => V (VarKey.worked e.id i dt)) wd
    constructor
    · constructor
      · intro hc
        rw [hc] at himp1
        simp only [Bool.not_true, Bool.false_or] at himp1
        have hlen : window_worked_sum V e.id i wd = wd.length := beq_iff_eq.mp himp1
        intro dt hdt
        rw [← hday' dt hdt]
        exact hsum.mp hlen dt hdt
      · intro hall
        have hlen : window_worked_sum V e.id i wd = wd.length :=
          hsum.mpr (fun dt hdt => (hday' dt hdt).trans (hall dt hdt))
        cases hcv : V (VarKey.consec e.id i) with
        | true => rfl
        | false =>
          exfalso
          rw [hcv] at himp2
          simp only [Bool.false_or, decide_eq_true_eq] at himp2
          omega
    · unfold consecutive_days_terms
      apply List.mem_flatten.mpr
      refine ⟨(consec_windows shifts e).enum.map
        (fun p => (VarKey.consec e.id p.1, -weight)), List.mem_map_of_mem _ he, ?_⟩
      exact List.mem_map_of_mem _ hiw

/-- Claim C5 witness: over the three-date instance with
`max_consecutive_days = 1` and the all-true valuation (which satisfies the
emitted constraints), the first window's indicator term appears in the
objective with coefficient `-30`. -/
theorem consec_days_reified_witness :
    (VarKey.consec "E2" 0, -(30 : Int)) ∈
      consecutive_days_terms winShifts [winEmployee] 30 :=
  ((consec_days_reified winShifts [winEmployee] winEmployee (by decide)
      all_true_valuation (by decide) 30).2.2 0 ["2025-03-10", "2025-03-11"]
      (by decide)).2

/-! ## Claim C6 -/

theorem insert_sorted_perm (x : String) :
    ∀ (l : List String), (insert_sorted x l).Perm (x :: l)
  | [] => List.Perm.refl _
  | y :: ys => by
    unfold insert_sorted
    by_cases h : chars_le x.data y.data
    · rw [if_pos h]
    · rw [if_neg h]
      exact (List.Perm.cons y (insert_sorted_perm x ys)).trans
        (List.Perm.swap x y ys)

theorem sort_strings_perm :
    ∀ (l : List String), (sort_strings l).Perm l
  | [] => List.Perm.refl _
  | x :: l =>
    (insert_sorted_perm x (sort_strings l)).trans
      (List.Perm.cons x (sort_strings_perm l))

theorem dedup_first_aux_nodup [DecidableEq α] :
    ∀ (l : List α) (seen : List α),
      (dedup_first_aux seen l).Nodup ∧ ∀ x ∈ dedup_first_aux seen l, x ∉ seen
  | [], _ => ⟨List.nodup_nil, by simp [dedup_first_aux]⟩
  | x :: xs, seen => by
    unfold dedup_first_aux
    by_cases h : x ∈ seen
    · rw [if_pos h]
      exact dedup_first_aux_nodup xs seen
    · rw [if_neg h]
      obtain ⟨hnd, hmem⟩ := dedup_first_aux_nodup xs (x :: seen)
      refine ⟨List.nodup_cons.mpr ⟨?_, hnd⟩, ?_⟩
      · intro hx
        exact hmem x hx (List.mem_cons_self _ _)
      · intro y hy
        rcases List.mem_cons.mp hy with rfl | hy'
        · exact h
        · intro hyseen
          exact hmem y hy' (List.mem_cons_of_mem _ hyseen)

theorem dedup_first_nodup [DecidableEq α] (l : List α) : (dedup_first l).Nodup :=
  (dedup_first_aux_nodup l []).1

theorem sorted_dates_nodup (shifts : List Shift) : (sorted_dates shifts).Nodup :=
  (sort_strings_perm _).symm.nodup
    (dedup_first_nodup (shifts.map (fun s => s.date)))

theorem consec_windows_nodup (shifts : List Shift) (e : Employee) :
    ∀ wd ∈ consec_windows shifts e, wd.Nodup := by
  intro wd hwd
  simp only [consec_windows, List.mem_map] at hwd
  obtain ⟨i, _, rfl⟩ := hwd
  exact List.Nodup.sublist
    ((List.take_sublist _ _).trans (List.drop_sublist _ _))
    (sorted_dates_nodup shifts)

theorem count_in_nodup_list (d : String) {wd : List String} (hnd : wd.Nodup) :
    wd.count d = if d ∈ wd then 1 else 0 := by
  by_cases h : d ∈ wd
  · rw [if_pos h]
    exact List.count_eq_one_of_mem hnd h
  · rw [if_neg h]
    exact List.count_eq_zero.mpr h

theorem sum_count_windows (d : String) :
    ∀ (L : List (List String)), (∀ wd ∈ L, wd.Nodup) →
      (L.map (fun wd => wd.count d)).sum = (L.filter (fun wd => d ∈ wd)).length
  | [], _ => rfl
  | wd :: L, h => by
    simp only [List.map_cons, List.sum_cons]
    rw [sum_count_windows d L (fun w hw => h w (List.mem_cons_of_mem _ hw)),
      count_in_nodup_list d (h wd (List.mem_cons_self _ _))]
    by_cases hd : d ∈ wd
    · rw [if_pos hd, List.filter_cons_of_pos (by simpa using hd)]
      simp [Nat.add_comm]
    · rw [if_neg hd, List.filter_cons_of_neg (by simpa using hd)]
      simp

theorem count_pair_map (eid d : String) :
    ∀ (wd : List String),
      (wd.map (fun dt => (eid, dt))).count (eid, d) = wd.count d
  | [] => rfl
  | dt :: wd => by
    simp only [List.map_cons, List.count_cons, count_pair_map eid d wd]
    congr 1
    by_cases h : dt = d
    · subst h; simp
    · simp [beq_iff_eq, Prod.ext_iff, h]

theorem employee_log_count (shifts : List Shift) (e : Employee) (d : String) :
    (employee_indicator_log shifts e).count (e.id, d) =
      ((consec_windows shifts e).filter (fun wd => d ∈ wd)).length := by
  unfold employee_indicator_log
  rw [List.count_flatten, List.map_map]
  have hpt : ∀ wd ∈ consec_windows shifts e,
      ((List.count (e.id, d)) ∘ (fun wd => wd.map (fun dt => (e.id, dt)))) wd =
        wd.count d := by
    intro wd _
    simp only [Function.comp_apply]
    exact count_pair_map e.id d wd
  rw [List.map_congr_left hpt]
  exact sum_count_windows d _ (consec_windows_nodup shifts e)

theorem day_indicator_log_fst (shifts : List Shift) (employees : List Employee)
    (p : String × String) (hp : p ∈ day_indicator_log shifts employees) :
    ∃ e ∈ employees, p.1 = e.id := by
  unfold day_indicator_log at hp
  obtain ⟨l, hl, hpl⟩ := List.mem_flatten.mp hp
  obtain ⟨e, he, rfl⟩ := List.mem_map.mp hl
  unfold employee_indicator_log at hpl
  obtain ⟨l2, hl2, hpl2⟩ := List.mem_flatten.mp hpl
  obtain ⟨wd, _, rfl⟩ := List.mem_map.mp hl2
  obtain ⟨dt, _, rfl⟩ := List.mem_map.mp hpl2
  exact ⟨e, he, rfl⟩

theorem log_count_nodup (shifts : List Shift) :
    ∀ (employees : List Employee), (employees.map (fun e => e.id)).Nodup →
      ∀ e ∈ employees, ∀ d : String,
        (day_indicator_log shifts employees).count (e.id, d) =
          ((consec_windows shifts e).filter (fun wd => d ∈ wd)).length
  | [], _, e, he, _ => absurd he (List.not_mem_nil e)
  | e' :: rest, hnd, e, he, d => by
    have hsplit : day_indicator_log shifts (e' :: rest) =
        employee_indicator_log shifts e' ++ day_indicator_log shifts rest := by
      unfold day_indicator_log
      rw [List.map_cons, List.flatten_cons]
    rw [hsplit, List.count_append]
    rw [List.map_cons] at hnd
    have hnd' := List.nodup_cons.mp hnd
    rcases List.mem_cons.mp he with rfl | hmem
    · have hrest0 : (day_indicator_log shifts rest).count (e.id, d) = 0 := by
        apply List.count_eq_zero.mpr
        intro hin
        obtain ⟨e'', he'', hfst⟩ := day_indicator_log_fst shifts rest _ hin
        have hfst' : e.id = e''.id := hfst
        exact hnd'.1 (hfst' ▸ List.mem_map_of_mem _ he'')
      rw [hrest0, employee_log_count shifts e d]
      simp
    · have hne : e'.id ≠ e.id := by
        intro hcontra
        exact hnd'.1 (hcontra ▸ List.mem_map_of_mem _ hmem)
      have hcur0 : (employee_indicator_log shifts e').count (e.id, d) = 0 := by
        apply List.count_eq_zero.mpr
        intro hin
        unfold employee_indicator_log at hin
        obtain ⟨l2, hl2, hp2⟩ := List.mem_flatten.mp hin
        obtain ⟨wd, _, rfl⟩ := List.mem_map.mp hl2
        obtain ⟨dt, _, hpair⟩ := List.mem_map.mp hp2
        exact hne (Prod.mk.inj hpair).1
      rw [hcur0, log_count_nodup shifts rest hnd'.2 e hmem d]
      simp

/-- Claim C6 (amended): during model construction each (employee, date)
pair receives one day-worked indicator *per sliding window containing that
date* — possibly zero or several, not exactly one — and every such
indicator is constrained (`AddMaxEquality`) to equal the OR of that
employee's assignment variables on that date, so duplicates agree in every
solution. -/
theorem day_indicator_per_window (shifts : List Shift) (employees : List Employee)
    (hids : (employees.map (fun e => e.id)).Nodup) (e : Employee)
    (he : e ∈ employees) (d : String) :
    (day_indicator_log shifts employees).count (e.id, d) =
      ((consec_windows shifts e).filter (fun wd => d ∈ wd)).length ∧
    (∀ V, consec_constraints_ok shifts employees V = true →
      ∀ i wd, (i, wd) ∈ (consec_windows shifts e).enum → d ∈ wd →
        V (VarKey.worked e.id i d) =
          (day_shifts shifts d).any (fun sid => V (VarKey.assign e.id sid))) := by
  constructor
  · exact log_count_nodup shifts employees hids e he d
  · intro V hV i wd hiw hd
    have hwin := List.all_eq_true.mp (List.all_eq_true.mp hV e he) (i, wd) hiw
    unfold window_constraints_ok at hwin
    simp only [Bool.and_eq_true] at hwin
    exact beq_iff_eq.mp (List.all_eq_true.mp hwin.1.1 d hd)

/-- Claim C6 witness: in the three-date instance, date `2025-03-10` lies in
exactly one window of its employee, so exactly one indicator is created
for that (employee, date) pair. -/
theorem day_indicator_per_window_witness :
    (day_indicator_log winShifts [winEmployee]).count (winEmployee.id, "2025-03-10") =
      ((consec_windows winShifts winEmployee).filter
        (fun wd => "2025-03-10" ∈ wd)).length :=
  (day_indicator_per_window winShifts [winEmployee] (by decide) winEmployee
    (by decide) "2025-03-10").1

/-- Claim C6 counterexample: date `2025-03-11` lies in both sliding windows
of `winShifts`, so its (employee, date) pair receives *two* day-worked
indicator booleans — refuting "no (employee, date) pair receives more than
one such indicator". -/
theorem duplicate_day_indicators :
    (day_indicator_log winShifts [winEmployee]).count ("E2", "2025-03-11") = 2 ∧
    (2 : Nat) ≠ 1 :=
  ⟨by decide, by decide⟩

/-! ## Claim C2 -/

theorem all_employees_weeks_ok_mem (A : String → String → Bool)
    (groups : List (String × List Shift)) :
    ∀ (employees : List Employee),
      all_employees_weeks_ok A groups employees = some true →
      ∀ e ∈ employees, employee_weeks_ok A e groups = some true
  | [], _, e, he => absurd he (List.not_mem_nil e)
  | e' :: rest, h, e, he => by
    unfold all_employees_weeks_ok at h
    obtain ⟨a, ha, h1⟩ := option_bind_some h
    obtain ⟨b, hb, h2⟩ := option_bind_some h1
    have hab : (a && b) = true := Option.some.inj h2
    simp only [Bool.and_eq_true] at hab
    rcases List.mem_cons.mp he with rfl | hmem
    · rw [ha, hab.1]
    · rw [hab.2] at hb
      exact all_employees_weeks_ok_mem A groups rest hb e hmem

theorem employee_weeks_ok_mem (A : String → String → Bool) (e : Employee) :
    ∀ (groups : List (String × List Shift)),
      employee_weeks_ok A e groups = some true →
      ∀ k ss, (k, ss) ∈ groups →
        ∃ t, week_group_hours A e.id ss = some t ∧ t ≤ e.maxHours
  | [], _, k, ss, hmem => absurd hmem (List.not_mem_nil (k, ss))
  | (k', ss') :: rest, h, k, ss, hmem => by
    unfold employee_weeks_ok at h
    obtain ⟨t, ht, h1⟩ := option_bind_some h
    obtain ⟨r, hr, h2⟩ := option_bind_some h1
    have hsome : (decide (t ≤ e.maxHours) && r) = true := Option.some.inj h2
    simp only [Bool.and_eq_true, decide_eq_true_eq] at hsome
    rcases List.mem_cons.mp hmem with heq | hmem'
    · obtain ⟨hk, hss⟩ := Prod.mk.inj heq
      subst hk
      subst hss
      exact ⟨t, ht, hsome.1⟩
    · rw [hsome.2] at hr
      exact employee_weeks_ok_mem A e rest hr k ss hmem'

theorem shifts_by_week_some (shifts : List Shift)
    (groups : List (String × List Shift))
    (hg : shifts_by_week shifts = some groups) :
    ∃ keyed, keyed_by_week shifts = some keyed ∧
      groups = (dedup_first (keyed.map (fun p => p.1))).map
        (fun k => (k, (keyed.filter (fun p => p.1 == k)).map (fun p => p.2))) := by
  unfold shifts_by_week at hg
  obtain ⟨keyed, hk, h1⟩ := option_bind_some hg
  exact ⟨keyed, hk, (Option.some.inj h1).symm⟩

theorem week_key_assigned_eq (shifts : List Shift) (A : String → String → Bool)
    (eid k : String) (keyed : List (String × Shift))
    (hk : keyed_by_week shifts = some keyed) :
    week_key_assigned_hours shifts A eid k =
      week_group_hours A eid ((keyed.filter (fun p => p.1 == k)).map (fun p => p.2)) := by
  unfold week_key_assigned_hours
  rw [hk]
  rfl

/-- Claim C2 (amended): in every solution, for every employee and every
*week key* (calendar year paired with ISO week number, the grouping
`_get_week_key` actually produces), the employee's assigned hours over the
shifts carrying that key stay within the employee's weekly cap.  The cap is
not enforced per ISO calendar week: a single ISO week that spans a calendar
year boundary is split across two keys (see the counterexample). -/
theorem weekly_cap_per_week_key (shifts : List Shift) (employees : List Employee)
    (A : String → String → Bool) (e : Employee)
    (groups : List (String × List Shift)) (k : String) (ss : List Shift) (S : Int)
    (hmax : max_hours_ok shifts employees A = some true)
    (he : e ∈ employees)
    (hg : shifts_by_week shifts = some groups)
    (hks : (k, ss) ∈ groups)
    (hS : week_key_assigned_hours shifts A e.id k = some S) :
    S ≤ e.maxHours := by
  obtain ⟨keyed, hkeyed, hgroups⟩ := shifts_by_week_some shifts groups hg
  have hall : all_employees_weeks_ok A groups employees = some true := by
    unfold max_hours_ok at hmax
    obtain ⟨groups', hg', h1⟩ := option_bind_some hmax
    rw [hg] at hg'
    rw [← Option.some.inj hg'] at h1
    exact h1
  have hew := all_employees_weeks_ok_mem A groups employees hall e he
  obtain ⟨t, ht, hle⟩ := employee_weeks_ok_mem A e groups hew k ss hks
  have hss : ss = (keyed.filter (fun p => p.1 == k)).map (fun p => p.2) := by
    rw [hgroups] at hks
    obtain ⟨k', _, heq⟩ := List.mem_map.mp hks
    obtain ⟨hk1, hk2⟩ := Prod.mk.inj heq
    rw [← hk2, hk1]
  rw [week_key_assigned_eq shifts A e.id k keyed hkeyed, ← hss, ht] at hS
  rw [← Option.some.inj hS]
  exact hle

/-- Claim C2 witness: over `wkShifts` with the all-true assignment, the cap
holds for the week-key group "2024-W1" of employee `E1`. -/
theorem weekly_cap_per_week_key_witness : (8 : Int) ≤ wkEmployee.maxHours :=
  weekly_cap_per_week_key wkShifts [wkEmployee] all_assigned wkEmployee
    [("2024-W1", [{ id := "S1", date := "2024-12-30", start_time := "09:00",
                    end_time := "17:00", min_staff := some 1 }]),
     ("2025-W1", [{ id := "S2", date := "2025-01-01", start_time := "09:00",
                    end_time := "17:00", min_staff := some 1 }])]
    "2024-W1"
    [{ id := "S1", date := "2024-12-30", start_time := "09:00",
       end_time := "17:00", min_staff := some 1 }]
    8 (by decide) (by decide) (by decide) (by decide) (by decide)

/-- Claim C2 counterexample: `wkShifts` places 8 mandatory hours on
2024-12-30 and 8 more on 2025-01-01 — the same ISO week 2025-W01 — for an
employee capped at 10 weekly hours.  The all-true assignment satisfies
every hard constraint the model emits (the two dates get different week
keys), yet the employee works 16 > 10 hours in that ISO calendar week, so
the claimed per-ISO-week bound fails for this solution. -/
theorem weekly_cap_iso_week_violation :
    hard_constraints_ok wkShifts [wkEmployee] all_assigned = some true ∧
    iso_week_of "2024-12-30" = some (2025, 1) ∧
    iso_week_of "2025-01-01" = some (2025, 1) ∧
    iso_week_assigned_hours wkShifts all_assigned "E1" (2025, 1) = some 16 ∧
    wkEmployee.maxHours = 10 ∧
    ¬(16 : Int) ≤ 10 :=
  ⟨by decide, by decide, by decide, by decide, by decide, by decide⟩

/-! ## Claim C3 -/

theorem get_week_key_eq (s : String) (y m d : Nat)
    (h : parse_date s = some (y, m, d)) :
    get_week_key s =
      some (String.mk (render_nat y ++ '-' :: 'W' :: render_nat (isocalendar y m d).2)) := by
  unfold get_week_key
  rw [h]
  rfl

theorem key_encode_inj {y1 w1 y2 w2 : Nat}
    (h : render_nat y1 ++ '-' :: 'W' :: render_nat w1 =
         render_nat y2 ++ '-' :: 'W' :: render_nat w2) :
    y1 = y2 ∧ w1 = w2 := by
  have hd1 : ∀ c ∈ render_nat y1, c ≠ '-' :=
    fun c hc => isDigit_ne_of_not_digit (render_nat_isDigit y1 c hc) (by decide)
  have hd2 : ∀ c ∈ render_nat y2, c ≠ '-' :=
    fun c hc => isDigit_ne_of_not_digit (render_nat_isDigit y2 c hc) (by decide)
  obtain ⟨hy, hrest⟩ := append_sep_inj hd1 hd2 h
  exact ⟨render_nat_injective hy,
    render_nat_injective (List.cons.inj hrest).2⟩

/-- Claim C3 (amended): two well-formed dates map to the same week key iff
they agree on *calendar year and ISO week number* together.  This is not
the same as falling in the same ISO calendar week: the key pairs the
calendar year with the ISO week number, so the equivalence with "same ISO
week" fails around year boundaries (see the counterexample). -/
theorem week_key_same_iff (s1 s2 : String) (p1 p2 : Nat × Nat)
    (h1 : week_key_data s1 = some p1) (h2 : week_key_data s2 = some p2) :
    (get_week_key s1 = get_week_key s2 ↔ p1 = p2) := by
  unfold week_key_data at h1 h2
  obtain ⟨x1, hpd1, hm1⟩ := option_bind_some h1
  obtain ⟨y1, m1, d1⟩ := x1
  have hp1 : (y1, (isocalendar y1 m1 d1).2) = p1 := Option.some.inj hm1
  obtain ⟨x2, hpd2, hm2⟩ := option_bind_some h2
  obtain ⟨y2, m2, d2⟩ := x2
  have hp2 : (y2, (isocalendar y2 m2 d2).2) = p2 := Option.some.inj hm2
  rw [get_week_key_eq s1 y1 m1 d1 hpd1, get_week_key_eq s2 y2 m2 d2 hpd2,
    ← hp1, ← hp2]
  constructor
  · intro hk
    have hstr := Option.some.inj hk
    have hlist : render_nat y1 ++ '-' :: 'W' :: render_nat (isocalendar y1 m1 d1).2 =
        render_nat y2 ++ '-' :: 'W' :: render_nat (isocalendar y2 m2 d2).2 :=
      congrArg String.data hstr
    obtain ⟨hy, hw⟩ := key_encode_inj hlist
    simp only [Prod.mk.injEq]
    exact ⟨hy, hw⟩
  · intro hp
    obtain ⟨hy, hw⟩ := Prod.mk.inj hp
    rw [hw, hy]

/-- Claim C3 witness: 2025-03-10 and 2025-03-12 share calendar year 2025
and ISO week number 11, and indeed receive equal week keys. -/
theorem week_key_same_iff_witness :
    (get_week_key "2025-03-10" = get_week_key "2025-03-12" ↔
      ((2025, 11) : Nat × Nat) = (2025, 11)) :=
  week_key_same_iff "2025-03-10" "2025-03-12" (2025, 11) (2025, 11)
    (by decide) (by decide)

/-- Claim C3 counterexample: the key is calendar year + ISO week number,
not an ISO week identifier.  2024-01-01 (ISO week 2024-W01) and 2024-12-30
(ISO week 2025-W01) lie in different ISO weeks yet share the key "2024-W1";
2024-12-30 and 2025-01-01 lie in the same ISO week 2025-W01 yet get the
different keys "2024-W1" and "2025-W1".  Both directions of the claimed
"same key iff same ISO calendar week" fail. -/
theorem week_key_not_iso :
    get_week_key "2024-01-01" = some "2024-W1" ∧
    get_week_key "2024-12-30" = some "2024-W1" ∧
    iso_week_of "2024-01-01" = some (2024, 1) ∧
    iso_week_of "2024-12-30" = some (2025, 1) ∧
    ((2024, 1) : Nat × Nat) ≠ (2025, 1) ∧
    get_week_key "2025-01-01" = some "2025-W1" ∧
    iso_week_of "2025-01-01" = some (2025, 1) ∧
    ("2024-W1" : String) ≠ "2025-W1" :=
  ⟨by decide, by decide, by decide, by decide, by decide, by decide, by decide,
   by decide⟩

end StaffScheduler
